import Mathlib

/-!
Verification of the raw-material planning pipeline in
`inventory_planner_app.py` (function `process_workbook` and its helpers).

The embedding models spreadsheet cell values, the numeric/string
normalization helpers (`safe_float`, `clean_comp`), the BOM explosion
(inner join of BOM and plan, grouped sum per component and date), the
requirement-ledger reconciliation (max overwrite), and the coverage
running-balance simulation with shortage emission and cause mapping.

Dates are modelled as an abstract type of day identifiers (natural
numbers): the source only compares normalized dates for equality and
carries them positionally, so the calendar structure is irrelevant.
Numeric cell contents are modelled as rationals: the claims under
scrutiny are about control flow, aggregation structure and comparisons,
not about binary floating-point rounding.
-/

set_option autoImplicit false

namespace Aptiv

/-- Day identifiers, standing for the normalized calendar dates
(`pd.to_datetime(...).date()`) that the source uses as lookup keys. -/
abbrev Date := Nat

/-- A spreadsheet cell value as the source sees it: an empty cell
(Python `None`), a string, a number (int or float, modelled as a
rational), or some other object (datetime, etc.) carrying only its
string rendering. -/
inductive Value where
  | none
  | str (s : String)
  | num (q : Rat)
  | other (rep : String)
  deriving DecidableEq, Repr

/-- Models Python `str(x)` for cell values: `str(None)` is the string
"None"; strings are unchanged; numbers render to their decimal text
(the exact text of a numeric rendering is never relied on by any claim);
other objects render to the representation they carry. -/
def pyStr : Value → String
  | Value.none => "None"
  | Value.str s => s
  | Value.num q => toString q
  | Value.other r => r

/-- Models Python `str.strip()`: drop leading and trailing whitespace. -/
def pyStrip (s : String) : String :=
  String.mk (((s.data.dropWhile Char.isWhitespace).reverse.dropWhile Char.isWhitespace).reverse)

/-- Models Python `str.upper()` (the data only exercises ASCII). -/
def pyUpper (s : String) : String :=
  String.mk (s.data.map Char.toUpper)

/-- Models Python `str.lower()` (the data only exercises ASCII). -/
def pyLower (s : String) : String :=
  String.mk (s.data.map Char.toLower)

/-- Source line 55: `clean_comp(x) = str(x).strip().upper()`, the
normalization applied to every component label. -/
def clean_comp (v : Value) : String :=
  pyUpper (pyStrip (pyStr v))

/-- The same normalization applied to a value already known to be a
string (`clean_comp` on a string cell). -/
def cleanStr (s : String) : String :=
  pyUpper (pyStrip s)

/-- Models `x.replace(",", ".")` from source line 49: every comma in the
string becomes a dot. -/
def commaFix (s : String) : String :=
  String.mk (s.data.map (fun c => if c = ',' then '.' else c))

/-- Digit run to a natural number (most significant first). -/
def digitsToNat (cs : List Char) : Nat :=
  cs.foldl (fun acc c => 10 * acc + (c.toNat - 48)) 0

/-- Models Python `float(s)` on a string: optional surrounding
whitespace, optional sign, a decimal literal with at most one dot and
at least one digit. Exponent forms, underscores, and inf/nan literals
are not modelled; no claim exercises them. Returns the parsed rational,
or nothing when Python float() would raise ValueError. -/
def parseDecimal? (s : String) : Option Rat :=
  let cs := (s.data.dropWhile Char.isWhitespace).reverse.dropWhile Char.isWhitespace |>.reverse
  let sgn : Rat := match cs with
    | '-' :: _ => -1
    | _ => 1
  let cs1 : List Char := match cs with
    | '-' :: rest => rest
    | '+' :: rest => rest
    | _ => cs
  if (cs1.filter (fun c => decide (c = '.'))).length ≥ 2 then Option.none
  else
    let ip := cs1.takeWhile (fun c => decide (c ≠ '.'))
    let fp := (cs1.dropWhile (fun c => decide (c ≠ '.'))).tail
    if cs1.isEmpty then Option.none
    else if ip.isEmpty ∧ fp.isEmpty then Option.none
    else if ip.all Char.isDigit ∧ fp.all Char.isDigit then
      Option.some (sgn * ((digitsToNat ip : Rat) + (digitsToNat fp : Rat) / ((10 : Rat) ^ fp.length)))
    else Option.none

/-- Models `float(x)` applied to a cell value: numbers pass through,
strings parse as decimal literals, `None` and other objects raise
(returned here as no value). -/
def pyFloatOfValue? : Value → Option Rat
  | Value.num q => Option.some q
  | Value.str s => parseDecimal? s
  | Value.none => Option.none
  | Value.other _ => Option.none

/-- Source lines 46-52: `safe_float` replaces commas by dots in string
inputs, converts with `float`, and returns 0.0 on any failure. -/
def safe_float (v : Value) : Rat :=
  (pyFloatOfValue? (match v with
    | Value.str s => Value.str (commaFix s)
    | w => w)).getD 0

/-! ## BOM explosion (source lines 70-117)

`plan_long` in the source is the unpivoted plan with rows of missing
planned quantity dropped; `bom_df` is the BOM with incomplete rows
dropped and the quantity coerced to a number. The lists below are those
cleaned tables. The inner join `merged`, the grouped sum `tot_need_df`
(pandas groupby with sort=False: keys in first-appearance order, one
output row per key), the lookup dictionary `need_lookup` and the cause
map `fg_map` are modelled directly. -/

/-- One cleaned BOM row: finished good (column Material), component,
and quantity per unit (column Comp. Qty (BUn)). -/
structure BOMEntry where
  fg : String
  comp : String
  qty : Rat
  deriving DecidableEq, Repr

/-- One cleaned plan row after the unpivot: finished good, date column,
planned quantity (rows with missing quantity were dropped; zero is a
present quantity and is kept, as in the source dropna). -/
structure PlanRow where
  fg : String
  date : Date
  qty : Rat
  deriving DecidableEq, Repr

/-- One row of `merged`: the inner join of BOM and plan on the finished
good, with TotalNeed = CompQty * QtyPlanned. -/
structure JoinRow where
  fg : String
  comp : String
  date : Date
  need : Rat
  deriving DecidableEq, Repr

/-- One row of the explosion output `tot_need_df`. -/
structure ComponentNeed where
  comp : String
  date : Date
  total : Rat
  deriving DecidableEq, Repr

/-- Source lines 103-106: `bom_small.merge(plan_long, on="FG",
how="inner")` followed by TotalNeed = CompQty * QtyPlanned. Left-row
order with matching right rows in order, as pandas produces. -/
def mergeBOMPlan : List BOMEntry → List PlanRow → List JoinRow
  | [], _ => []
  | b :: bs, plan =>
    ((plan.filter (fun p => decide (p.fg = b.fg))).map
      (fun p => ⟨b.fg, b.comp, p.date, b.qty * p.qty⟩)) ++ mergeBOMPlan bs plan

/-- The groupby key of a join row: (Component, Date). -/
def keyOf (r : JoinRow) : String × Date :=
  (r.comp, r.date)

/-- Keys in first-appearance order with duplicates dropped, as pandas
groupby with sort=False orders its groups. -/
def firstKeysAux (seen : List (String × Date)) : List (String × Date) → List (String × Date)
  | [] => []
  | k :: ks => if k ∈ seen then firstKeysAux seen ks else k :: firstKeysAux (k :: seen) ks

/-- Keys of a join in first-appearance order, each once. -/
def firstKeys (l : List (String × Date)) : List (String × Date) :=
  firstKeysAux [] l

/-- The grouped sum of TotalNeed over the join rows with a given key. -/
def groupSum (rows : List JoinRow) (k : String × Date) : Rat :=
  (rows.filterMap (fun r => if keyOf r = k then Option.some r.need else Option.none)).sum

/-- Source lines 103-111: the explosion output `tot_need_df` — one row
per distinct (Component, Date) of the join, holding the summed
TotalNeed. -/
def explode (bom : List BOMEntry) (plan : List PlanRow) : List ComponentNeed :=
  let rows := mergeBOMPlan bom plan
  (firstKeys (rows.map keyOf)).map (fun k => ⟨k.1, k.2, groupSum rows k⟩)

/-- The totalNeed the explosion output assigns to a (component, date)
pair, read off as a sum over the matching output rows (the output has
at most one row per key, so this is that value, or 0 when absent). -/
def needOf (out : List ComponentNeed) (c : String) (d : Date) : Rat :=
  (out.filterMap (fun n => if n.comp = c ∧ n.date = d then Option.some n.total else Option.none)).sum

/-- The claim formula: for component c and date d, sum over all BOM
entries for c of qtyPerUnit times the planned quantities of that
finished good at d. -/
def needSum (bom : List BOMEntry) (plan : List PlanRow) (c : String) (d : Date) : Rat :=
  (bom.map (fun b =>
    if b.comp = c then
      ((plan.filter (fun p => decide (p.fg = b.fg ∧ p.date = d))).map (fun p => b.qty * p.qty)).sum
    else 0)).sum

/-- Source lines 133-134: the dictionary from (clean_comp Component,
date) to TotalNeed, built by comprehension over `tot_need_df`, so a
later row with the same normalized key overwrites an earlier one. -/
def need_lookup (needs : List ComponentNeed) (c : String) (d : Date) : Option Rat :=
  (needs.reverse.find? (fun n => decide (cleanStr n.comp = c ∧ n.date = d))).map ComponentNeed.total

/-- Insert into a sorted list of strings (ascending). -/
def insertStr (a : String) : List String → List String
  | [] => [a]
  | b :: bs => if a ≤ b then a :: b :: bs else b :: insertStr a bs

/-- Ascending sort of strings, modelling Python sorted() on a set of
strings. -/
def sortStrs : List String → List String
  | [] => []
  | a :: as => insertStr a (sortStrs as)

/-- Distinct elements of a list of strings (a Python set of strings;
order is irrelevant because the result is always sorted afterwards). -/
def dedupStrs : List String → List String
  | [] => []
  | a :: as => if a ∈ dedupStrs as then dedupStrs as else a :: dedupStrs as

/-- Source lines 164-166: `fg_map[(clean_comp(Component), date)]` is the
set of finished-good codes of the join rows with that normalized key;
a missing key gives the empty set (defaultdict). Rendered sorted. -/
def fg_map (joined : List JoinRow) (c : String) (d : Date) : List String :=
  sortStrs (dedupStrs (joined.filterMap
    (fun r => if cleanStr r.comp = c ∧ r.date = d then Option.some r.fg else Option.none)))

/-- Models Python sep.join(items). -/
def joinSep (sep : String) : List String → String
  | [] => ""
  | [a] => a
  | a :: b :: rest => a ++ sep ++ joinSep sep (b :: rest)

/-- Source line 182: rendering of the causing finished goods,
a comma-joined sorted list, or the placeholder dash when the set is
empty (the `or` branch). -/
def fgJoin (fgs : List String) : String :=
  if fgs = [] then "–" else joinSep ", " fgs

/-! ## Requirement-ledger reconciliation (source lines 122-153)

The ledger sheet is a grid of cell values, 0-based here (the source
uses 1-based openpyxl coordinates; 1-based row r and column c are
0-based r-1 and c-1). Reading a cell that was never written yields an
empty cell, as openpyxl does. -/

/-- Read a grid cell (0-based row and column); absent cells are empty. -/
def cellAt (grid : List (List Value)) (r c : Nat) : Value :=
  (grid.getD r []).getD c Value.none

/-- Source lines 145-151 for one cell: look up the exploded need for
the key; when present and strictly greater than the numeric reading of
the cell, overwrite the cell with the need, else leave the cell. -/
def reconcileCell (need : String → Date → Option Rat) (comp : String) (day : Date)
    (v : Value) : Value :=
  match need comp day with
  | Option.none => v
  | Option.some nv => if safe_float v < nv then Value.num nv else v

/-- Source lines 138-151 for one ledger row: normalize the component
label from column 1 (0-based 0); when blank the row is left as it is;
otherwise the date columns (1-based 2 .. 1+N, 0-based 1 .. N, the
column for 0-based index j carrying ordered_dates[j-1]) are each
reconciled, and every other column is left as it is. -/
def reconcileRow (need : String → Date → Option Rat) (dates : List Date)
    (row : List Value) : List Value :=
  let comp := clean_comp (row.getD 0 Value.none)
  if comp = "" then row
  else
    (List.range (max row.length (1 + dates.length))).map (fun j =>
      if 1 ≤ j ∧ j - 1 < dates.length then
        reconcileCell need comp (dates.getD (j - 1) 0) (row.getD j Value.none)
      else row.getD j Value.none)

/-- Source lines 127-128: the first row whose first cell reads
"component" after str(), strip() and lower(). -/
def findHeaderRow (grid : List (List Value)) : Option Nat :=
  (List.range grid.length).find? (fun r => decide (pyLower (pyStrip (pyStr (cellAt grid r 0))) = "component"))

/-- Source lines 127-152: the ledger sync. When the Component header
row cannot be found the pipeline aborts with a descriptive ValueError;
otherwise every row strictly below the header is reconciled and the
rest of the grid is untouched. -/
def reconcile (need : String → Date → Option Rat) (dates : List Date)
    (grid : List (List Value)) : Except String (List (List Value)) :=
  match findHeaderRow grid with
  | Option.none => Except.error "Cannot find Component header in RM TOTAL REQUIREMENT sheet"
  | Option.some h => Except.ok ((List.range grid.length).map (fun r =>
      if r ≤ h then grid.getD r [] else reconcileRow need dates (grid.getD r [])))

instance instDecEqExceptA {ε α : Type} [DecidableEq ε] [DecidableEq α] :
    DecidableEq (Except ε α) := fun a b =>
  match a, b with
  | Except.error e, Except.error f =>
    if h : e = f then Decidable.isTrue (by rw [h])
    else Decidable.isFalse (fun hh => h (by cases hh; rfl))
  | Except.error _, Except.ok _ => Decidable.isFalse (fun hh => Except.noConfusion hh)
  | Except.ok _, Except.error _ => Decidable.isFalse (fun hh => Except.noConfusion hh)
  | Except.ok x, Except.ok y =>
    if h : x = y then Decidable.isTrue (by rw [h])
    else Decidable.isFalse (fun hh => h (by cases hh; rfl))

/-! ## Coverage simulation (source lines 155-186) -/

/-- Source line 160: the day count the code derives from the coverage
sheet width, `(max_column - 3) // 3` (natural-number division; the
degenerate case max_column < 3 differs from Python floor division but
is never reached on a sheet with the APN header). -/
def n_days (maxCol : Nat) : Nat :=
  (maxCol - 3) / 3

/-- Source line 161: the 1-based intransit column for 0-based transit
index i, `idx_transit[i] = 4 + n_days + i`. -/
def idx_transit (nDays i : Nat) : Nat :=
  4 + nDays + i

/-- One step of the running balance for loop index i processing one
date: for i > 0 first accumulate the intransit figure read from the
coverage row at 1-based column idx_transit[i-1], then subtract the
need looked up for (comp, day), defaulting to 0 when absent. -/
def stepBal (row : List Value) (nDays : Nat) (need : String → Date → Option Rat)
    (comp : String) (prev : Rat) (i : Nat) (day : Date) : Rat :=
  (if i = 0 then prev
   else prev + safe_float (row.getD (idx_transit nDays (i - 1) - 1) Value.none))
  - ((need comp day).getD 0)

/-- The balance after processing the j-th remaining date, entering at
loop index k with balance prev (a generalization used to reason about
the loop; covBalance below instantiates it at the start). -/
def balAux (row : List Value) (nDays : Nat) (need : String → Date → Option Rat)
    (comp : String) (prev : Rat) (k : Nat) (rest : List Date) : Nat → Rat
  | 0 => stepBal row nDays need comp prev k (rest.getD 0 0)
  | j + 1 => stepBal row nDays need comp (balAux row nDays need comp prev k rest j)
      (k + j + 1) (rest.getD (j + 1) 0)

/-- The running balance of the claims: balance(0) = stock + wip minus
the day-0 need; balance(i) for i > 0 additionally accumulates the
intransit figure indexed i-1 before subtracting the day-i need.
Stock and wip are the numeric readings of coverage columns 2 and 3
(0-based 1 and 2). -/
def covBalance (row : List Value) (nDays : Nat) (need : String → Date → Option Rat)
    (comp : String) (dates : List Date) (i : Nat) : Rat :=
  balAux row nDays need comp
    (safe_float (row.getD 1 Value.none) + safe_float (row.getD 2 Value.none)) 0 dates i

/-- Source lines 176-184, the day loop over one coverage row: thread
the balance (negative balances carry forward unchanged), and emit
(day, component, rendered causing finished goods) whenever the balance
after subtracting the need is strictly negative. -/
def simRowGo (row : List Value) (nDays : Nat) (need : String → Date → Option Rat)
    (fgm : String → Date → List String) (comp : String) :
    Nat → Rat → List Date → List (Date × String × String)
  | _, _, [] => []
  | i, prev, day :: rest =>
    let prev2 := if i = 0 then prev
      else prev + safe_float (row.getD (idx_transit nDays (i - 1) - 1) Value.none)
    let bal := prev2 - ((need comp day).getD 0)
    if bal < 0 then
      (day, comp, fgJoin (fgm comp day)) :: simRowGo row nDays need fgm comp (i + 1) bal rest
    else simRowGo row nDays need fgm comp (i + 1) bal rest

/-- Source lines 169-184 for one coverage row: normalize the component
from column 1; a blank label skips the row (no shortage is ever
emitted for it); otherwise run the day loop starting from stock + wip
(the numeric readings of columns 2 and 3). -/
def simRow (row : List Value) (nDays : Nat) (need : String → Date → Option Rat)
    (fgm : String → Date → List String) (dates : List Date) : List (Date × String × String) :=
  let comp := clean_comp (row.getD 0 Value.none)
  if comp = "" then []
  else simRowGo row nDays need fgm comp 0
    (safe_float (row.getD 1 Value.none) + safe_float (row.getD 2 Value.none)) dates

/-- Python exception kinds the coverage stage can surface: a ValueError
carrying a message, or a bare StopIteration (raised by `next` on an
exhausted generator), which carries no message. -/
inductive PyError where
  | valueError (msg : String)
  | stopIteration
  deriving DecidableEq, Repr

/-- The message an exception surfaces to the user (`str(e)` shown by the
front end); a bare StopIteration has none. -/
def errMessage : PyError → Option String
  | PyError.valueError m => Option.some m
  | PyError.stopIteration => Option.none

/-- Whether an error surfaces a descriptive message. -/
def isDescriptive (e : PyError) : Bool :=
  match e with
  | PyError.valueError m => decide (m ≠ "")
  | PyError.stopIteration => false

/-- Source line 159: the first row of the coverage sheet whose first
cell is literally the string "APN" (no normalization is applied). -/
def findCovHeader (grid : List (List Value)) : Option Nat :=
  (List.range grid.length).find? (fun r => decide (cellAt grid r 0 = Value.str "APN"))

/-- Source line 159: `hdr = next(r for ... if ... == "APN")` — with no
default, an exhausted search raises a bare StopIteration. -/
def coverageHeaderStage (grid : List (List Value)) : Except PyError Nat :=
  match findCovHeader grid with
  | Option.none => Except.error PyError.stopIteration
  | Option.some h => Except.ok h

/-- The set of causing finished goods as claim C4 words it: finished
goods with a BOM entry for the component and a NONZERO (not merely
present) planned quantity on the date, sorted. This follows the claim
wording, to be compared against the fg_map the source builds. -/
def specNonzeroCauses (bom : List BOMEntry) (plan : List PlanRow) (c : String) (d : Date) :
    List String :=
  sortStrs (dedupStrs (bom.filterMap (fun b =>
    if cleanStr b.comp = c ∧ plan.any (fun p => decide (p.fg = b.fg ∧ p.date = d ∧ p.qty ≠ 0))
    then Option.some b.fg else Option.none)))

/-! ## General list helper lemmas -/

lemma getD_map_range {α : Type} (f : Nat → α) :
    ∀ (n j : Nat) (d : α), ((List.range n).map f).getD j d = if j < n then f j else d := by
  intro n
  induction n generalizing f with
  | zero => intro j d; simp
  | succ n ih =>
    intro j d
    rw [List.range_succ_eq_map, List.map_cons, List.map_map]
    cases j with
    | zero => simp
    | succ j =>
      simp only [List.getD_cons_succ]
      rw [ih]
      simp [Nat.succ_lt_succ_iff, Function.comp]

lemma filterMap_map_fun {α β γ : Type} (l : List α) (f : α → β) (g : β → Option γ) :
    (l.map f).filterMap g = l.filterMap (fun a => g (f a)) := by
  induction l with
  | nil => simp
  | cons a as ih => simp only [List.map_cons, List.filterMap_cons, ih]

lemma filterMap_eq_nil_of_none {α β : Type} (l : List α) (f : α → Option β)
    (h : ∀ a ∈ l, f a = Option.none) : l.filterMap f = [] := by
  induction l with
  | nil => simp
  | cons a as ih =>
    rw [List.filterMap_cons, h a (List.mem_cons_self a as)]
    exact ih (fun x hx => h x (List.mem_cons_of_mem a hx))

lemma sum_filterMap_if {α : Type} (l : List α) (p : α → Prop) [DecidablePred p] (f : α → Rat) :
    (l.filterMap (fun a => if p a then Option.some (f a) else Option.none)).sum
      = ((l.filter (fun a => decide (p a))).map f).sum := by
  induction l with
  | nil => simp
  | cons a as ih =>
    by_cases hp : p a
    · simp [List.filterMap_cons, List.filter_cons, hp, ih]
    · simp [List.filterMap_cons, List.filter_cons, hp, ih]

lemma sum_filterMap_eq_single {α : Type} [DecidableEq α] (f : α → Rat) :
    ∀ (l : List α) (a : α), l.Nodup →
      (l.filterMap (fun x => if x = a then Option.some (f x) else Option.none)).sum
        = if a ∈ l then f a else 0 := by
  intro l
  induction l with
  | nil => simp
  | cons b bs ih =>
    intro a hnd
    rcases List.nodup_cons.mp hnd with ⟨hb, hnd2⟩
    by_cases hba : b = a
    · subst hba
      rw [List.filterMap_cons,
        show (if b = b then Option.some (f b) else Option.none) = Option.some (f b) from if_pos rfl,
        List.sum_cons, ih b hnd2, if_neg hb, if_pos (List.mem_cons_self b bs)]
      simp
    · rw [List.filterMap_cons,
        show (if b = a then Option.some (f b) else Option.none) = Option.none from if_neg hba,
        ih a hnd2]
      by_cases ha : a ∈ bs
      · rw [if_pos ha, if_pos (List.mem_cons_of_mem _ ha)]
      · rw [if_neg ha, if_neg (fun hmem => by
          rcases List.mem_cons.mp hmem with h | h
          · exact hba h.symm
          · exact ha h)]

lemma countP_eq_single {α : Type} [DecidableEq α] :
    ∀ (l : List α) (a : α), l.Nodup →
      l.countP (fun x => decide (x = a)) = if a ∈ l then 1 else 0 := by
  intro l
  induction l with
  | nil => simp
  | cons b bs ih =>
    intro a hnd
    rcases List.nodup_cons.mp hnd with ⟨hb, hnd2⟩
    rw [List.countP_cons, ih a hnd2]
    by_cases hba : b = a
    · subst hba
      rw [if_neg hb, if_pos (List.mem_cons_self b bs)]
      simp
    · have hfalse : (decide (b = a)) = false := by simp [hba]
      rw [hfalse]
      have hiff : (a ∈ b :: bs) ↔ a ∈ bs := by
        constructor
        · intro hmem
          rcases List.mem_cons.mp hmem with h | h
          · exact absurd h.symm hba
          · exact h
        · exact List.mem_cons_of_mem b
      by_cases ha : a ∈ bs
      · rw [if_pos ha, if_pos (hiff.mpr ha)]
        simp
      · rw [if_neg ha, if_neg (show ¬(a ∈ b :: bs) from fun hmem => ha (hiff.mp hmem))]
        simp

/-! ## Lemmas about the explosion -/

lemma mem_firstKeysAux : ∀ (l seen : List (String × Date)) (k : String × Date),
    k ∈ firstKeysAux seen l ↔ k ∉ seen ∧ k ∈ l := by
  intro l
  induction l with
  | nil => intro seen k; simp [firstKeysAux]
  | cons a as ih =>
    intro seen k
    simp only [firstKeysAux]
    by_cases ha : a ∈ seen
    · rw [if_pos ha, ih]
      constructor
      · rintro ⟨h1, h2⟩
        exact ⟨h1, List.mem_cons_of_mem _ h2⟩
      · rintro ⟨h1, h2⟩
        rcases List.mem_cons.mp h2 with rfl | h2
        · exact absurd ha h1
        · exact ⟨h1, h2⟩
    · rw [if_neg ha]
      constructor
      · intro hmem
        rcases List.mem_cons.mp hmem with rfl | hmem
        · exact ⟨ha, List.mem_cons_self k as⟩
        · rcases (ih (a :: seen) k).mp hmem with ⟨h1, h2⟩
          exact ⟨fun hk => h1 (List.mem_cons_of_mem a hk), List.mem_cons_of_mem a h2⟩
      · rintro ⟨h1, h2⟩
        by_cases hk : k = a
        · subst hk; exact List.mem_cons_self k _
        · rcases List.mem_cons.mp h2 with rfl | h2
          · exact absurd rfl hk
          · exact List.mem_cons_of_mem a ((ih (a :: seen) k).mpr
              ⟨by
                intro hmem
                rcases List.mem_cons.mp hmem with h | h
                · exact hk h
                · exact h1 h, h2⟩)

lemma mem_firstKeys (l : List (String × Date)) (k : String × Date) :
    k ∈ firstKeys l ↔ k ∈ l := by
  rw [firstKeys, mem_firstKeysAux]
  simp

lemma nodup_firstKeysAux : ∀ (l seen : List (String × Date)), (firstKeysAux seen l).Nodup := by
  intro l
  induction l with
  | nil => intro seen; simp [firstKeysAux]
  | cons a as ih =>
    intro seen
    simp only [firstKeysAux]
    by_cases ha : a ∈ seen
    · rw [if_pos ha]; exact ih seen
    · rw [if_neg ha]
      refine List.nodup_cons.mpr ⟨?_, ih (a :: seen)⟩
      intro hmem
      exact ((mem_firstKeysAux as (a :: seen) a).mp hmem).1 (List.mem_cons_self a seen)

lemma nodup_firstKeys (l : List (String × Date)) : (firstKeys l).Nodup :=
  nodup_firstKeysAux l []

lemma mem_mergeBOMPlan : ∀ (bom : List BOMEntry) (plan : List PlanRow) (r : JoinRow),
    r ∈ mergeBOMPlan bom plan ↔
      ∃ b, b ∈ bom ∧ ∃ p, p ∈ plan ∧ p.fg = b.fg ∧
        r = ⟨b.fg, b.comp, p.date, b.qty * p.qty⟩ := by
  intro bom
  induction bom with
  | nil => intro plan r; simp [mergeBOMPlan]
  | cons b bs ih =>
    intro plan r
    simp only [mergeBOMPlan, List.mem_append, List.mem_map, List.mem_filter,
      decide_eq_true_eq, ih]
    constructor
    · rintro (⟨p, ⟨hp, hfg⟩, rfl⟩ | ⟨b2, hb2, p, hp, hfg, rfl⟩)
      · exact ⟨b, List.mem_cons_self b bs, p, hp, hfg, rfl⟩
      · exact ⟨b2, List.mem_cons_of_mem b hb2, p, hp, hfg, rfl⟩
    · rintro ⟨b2, hb2, p, hp, hfg, rfl⟩
      rcases List.mem_cons.mp hb2 with rfl | hb2
      · exact Or.inl ⟨p, ⟨hp, hfg⟩, rfl⟩
      · exact Or.inr ⟨b2, hb2, p, hp, hfg, rfl⟩

lemma groupSum_merge (bom : List BOMEntry) (plan : List PlanRow) (c : String) (d : Date) :
    groupSum (mergeBOMPlan bom plan) (c, d) = needSum bom plan c d := by
  induction bom with
  | nil => simp [mergeBOMPlan, groupSum, needSum]
  | cons b bs ih =>
    rw [needSum, List.map_cons, List.sum_cons, ← needSum, ← ih]
    rw [groupSum, mergeBOMPlan, List.filterMap_append, List.sum_append, ← groupSum]
    congr 1
    rw [groupSum, filterMap_map_fun]
    have hsel : (fun p : PlanRow =>
        (fun r : JoinRow => if keyOf r = (c, d) then Option.some r.need else Option.none)
          (⟨b.fg, b.comp, p.date, b.qty * p.qty⟩ : JoinRow))
        = (fun p : PlanRow =>
            if (b.comp, p.date) = (c, d) then Option.some (b.qty * p.qty) else Option.none) := by
      funext p
      simp [keyOf]
    rw [hsel, sum_filterMap_if]
    by_cases hc : b.comp = c
    · rw [if_pos hc]
      have hfil : ((plan.filter (fun p => decide (p.fg = b.fg))).filter
            (fun p => decide ((b.comp, p.date) = (c, d))))
          = plan.filter (fun p => decide (p.fg = b.fg ∧ p.date = d)) := by
        rw [List.filter_filter]
        apply List.filter_congr
        intro p _
        rw [← Bool.decide_and]
        apply decide_eq_decide.mpr
        constructor
        · rintro ⟨h1, h2⟩
          rw [Prod.mk.injEq] at h1
          exact ⟨h2, h1.2⟩
        · rintro ⟨h1, h2⟩
          exact ⟨by rw [Prod.mk.injEq]; exact ⟨hc, h2⟩, h1⟩
      rw [hfil]
    · rw [if_neg hc]
      have hfil : ((plan.filter (fun p => decide (p.fg = b.fg))).filter
            (fun p => decide ((b.comp, p.date) = (c, d)))) = [] := by
        apply List.filter_eq_nil_iff.mpr
        intro p _
        simp only [decide_eq_true_eq, Prod.mk.injEq, not_and]
        intro h
        exact absurd h hc
      rw [hfil]
      simp

lemma needOf_explode (bom : List BOMEntry) (plan : List PlanRow) (c : String) (d : Date) :
    needOf (explode bom plan) c d = groupSum (mergeBOMPlan bom plan) (c, d) := by
  rw [needOf, explode]
  rw [filterMap_map_fun]
  have hsel : (fun k : String × Date =>
      (fun n : ComponentNeed => if n.comp = c ∧ n.date = d then Option.some n.total else Option.none)
        (⟨k.1, k.2, groupSum (mergeBOMPlan bom plan) k⟩ : ComponentNeed))
      = (fun k : String × Date =>
          if k = (c, d) then Option.some (groupSum (mergeBOMPlan bom plan) k) else Option.none) := by
    funext k
    by_cases hk : k = (c, d)
    · subst hk; simp
    · have hk2 : ¬(k.1 = c ∧ k.2 = d) := by
        rw [Prod.ext_iff] at hk
        simpa using hk
      simp [hk, hk2]
  rw [hsel, sum_filterMap_eq_single _ _ _ (nodup_firstKeys _)]
  by_cases hmem : (c, d) ∈ firstKeys ((mergeBOMPlan bom plan).map keyOf)
  · rw [if_pos hmem]
  · rw [if_neg hmem]
    rw [mem_firstKeys] at hmem
    have : groupSum (mergeBOMPlan bom plan) (c, d) = 0 := by
      rw [groupSum, filterMap_eq_nil_of_none]
      · simp
      · intro r hr
        rw [if_neg]
        intro hkey
        exact hmem (List.mem_map.mpr ⟨r, hr, hkey⟩)
    rw [this]

lemma countP_congr_fun {α : Type} (l : List α) (p q : α → Bool)
    (h : ∀ a ∈ l, p a = q a) : l.countP p = l.countP q := by
  induction l with
  | nil => simp
  | cons a as ih =>
    rw [List.countP_cons, List.countP_cons, h a (List.mem_cons_self a as),
      ih (fun x hx => h x (List.mem_cons_of_mem a hx))]

lemma countP_explode (bom : List BOMEntry) (plan : List PlanRow) (c : String) (d : Date) :
    (explode bom plan).countP (fun n => decide (n.comp = c ∧ n.date = d))
      = if (c, d) ∈ (mergeBOMPlan bom plan).map keyOf then 1 else 0 := by
  rw [explode, List.countP_map]
  have hcong := countP_congr_fun (firstKeys ((mergeBOMPlan bom plan).map keyOf))
    ((fun n : ComponentNeed => decide (n.comp = c ∧ n.date = d)) ∘
      (fun k : String × Date => (⟨k.1, k.2, groupSum (mergeBOMPlan bom plan) k⟩ : ComponentNeed)))
    (fun k : String × Date => decide (k = (c, d)))
    (by
      intro k _
      simp only [Function.comp]
      apply decide_eq_decide.mpr
      constructor
      · rintro ⟨h1, h2⟩
        exact Prod.ext h1 h2
      · rintro rfl
        exact ⟨rfl, rfl⟩)
  rw [hcong, countP_eq_single _ _ (nodup_firstKeys _)]
  by_cases hmem : (c, d) ∈ (mergeBOMPlan bom plan).map keyOf
  · rw [if_pos ((mem_firstKeys _ _).mpr hmem), if_pos hmem]
  · rw [if_neg (fun h => hmem ((mem_firstKeys _ _).mp h)), if_neg hmem]

lemma needSum_append_zero (bom : List BOMEntry) (plan : List PlanRow) (c : String) (d : Date)
    (fgz : String) (dz : Date) :
    needSum bom (plan ++ [⟨fgz, dz, 0⟩]) c d = needSum bom plan c d := by
  rw [needSum, needSum]
  congr 1
  apply List.map_congr_left
  intro b _
  by_cases hc : b.comp = c
  · rw [if_pos hc, if_pos hc]
    rw [List.filter_append, List.map_append, List.sum_append]
    have hz : ((([⟨fgz, dz, 0⟩] : List PlanRow).filter
        (fun p => decide (p.fg = b.fg ∧ p.date = d))).map (fun p => b.qty * p.qty)).sum = 0 := by
      by_cases hm : fgz = b.fg ∧ dz = d
      · simp [List.filter_cons, hm]
      · simp [List.filter_cons, hm]
    rw [hz, add_zero]
  · rw [if_neg hc, if_neg hc]

/-! ## Lemmas about the reconciliation -/

lemma safe_float_num (q : Rat) : safe_float (Value.num q) = q := rfl

lemma reconcileCell_not_looked_up (need : String → Date → Option Rat) (comp : String)
    (day : Date) (v : Value) (h : need comp day = Option.none) :
    reconcileCell need comp day v = v := by
  simp only [reconcileCell, h]

lemma safe_float_reconcileCell (need : String → Date → Option Rat) (comp : String)
    (day : Date) (v : Value) (nv : Rat) (h : need comp day = Option.some nv) :
    safe_float (reconcileCell need comp day v) = max (safe_float v) nv := by
  simp only [reconcileCell, h]
  by_cases hlt : safe_float v < nv
  · rw [if_pos hlt, safe_float_num, max_eq_right (le_of_lt hlt)]
  · rw [if_neg hlt, max_eq_left (le_of_not_lt hlt)]

lemma reconcileCell_idem (need : String → Date → Option Rat) (comp : String)
    (day : Date) (v : Value) :
    reconcileCell need comp day (reconcileCell need comp day v)
      = reconcileCell need comp day v := by
  cases hnd : need comp day with
  | none => simp only [reconcileCell, hnd]
  | some nv =>
    simp only [reconcileCell, hnd]
    by_cases hlt : safe_float v < nv
    · rw [if_pos hlt, safe_float_num, if_neg (lt_irrefl nv)]
    · rw [if_neg hlt, if_neg hlt]

lemma reconcileRow_blank (need : String → Date → Option Rat) (dates : List Date)
    (row : List Value) (h : clean_comp (row.getD 0 Value.none) = "") :
    reconcileRow need dates row = row := by
  simp only [reconcileRow]
  rw [if_pos h]

lemma reconcileRow_getD (need : String → Date → Option Rat) (dates : List Date)
    (row : List Value) (j : Nat) (h : clean_comp (row.getD 0 Value.none) ≠ "") :
    (reconcileRow need dates row).getD j Value.none =
      if 1 ≤ j ∧ j - 1 < dates.length then
        reconcileCell need (clean_comp (row.getD 0 Value.none)) (dates.getD (j - 1) 0)
          (row.getD j Value.none)
      else row.getD j Value.none := by
  simp only [reconcileRow]
  rw [if_neg h, getD_map_range]
  by_cases hj : j < max row.length (1 + dates.length)
  · rw [if_pos hj]
  · rw [if_neg hj]
    have hcond : ¬(1 ≤ j ∧ j - 1 < dates.length) := by
      rintro ⟨h1, h2⟩
      apply hj
      have h3 : j < 1 + dates.length := by omega
      exact lt_of_lt_of_le h3 (le_max_right _ _)
    rw [if_neg hcond]
    have hlen : row.length ≤ j := le_trans (le_max_left _ _) (le_of_not_lt hj)
    rw [List.getD_eq_default _ _ hlen]

lemma reconcileRow_getD0 (need : String → Date → Option Rat) (dates : List Date)
    (row : List Value) :
    (reconcileRow need dates row).getD 0 Value.none = row.getD 0 Value.none := by
  by_cases h : clean_comp (row.getD 0 Value.none) = ""
  · rw [reconcileRow_blank _ _ _ h]
  · rw [reconcileRow_getD _ _ _ _ h, if_neg (by rintro ⟨h1, _⟩; omega)]

lemma reconcileRow_length (need : String → Date → Option Rat) (dates : List Date)
    (row : List Value) (h : clean_comp (row.getD 0 Value.none) ≠ "") :
    (reconcileRow need dates row).length = max row.length (1 + dates.length) := by
  simp only [reconcileRow]
  rw [if_neg h]
  simp

lemma reconcileRow_idem (need : String → Date → Option Rat) (dates : List Date)
    (row : List Value) :
    reconcileRow need dates (reconcileRow need dates row) = reconcileRow need dates row := by
  by_cases h : clean_comp (row.getD 0 Value.none) = ""
  · rw [reconcileRow_blank _ _ _ h, reconcileRow_blank _ _ _ h]
  · have h2 : clean_comp ((reconcileRow need dates row).getD 0 Value.none) ≠ "" := by
      rw [reconcileRow_getD0]; exact h
    apply List.ext_getElem
    · rw [reconcileRow_length _ _ _ h2, reconcileRow_length _ _ _ h]
      exact max_eq_left (le_max_right _ _)
    · intro n h1n h2n
      rw [← List.getD_eq_getElem _ Value.none h1n, ← List.getD_eq_getElem _ Value.none h2n]
      by_cases hc : 1 ≤ n ∧ n - 1 < dates.length
      · rw [reconcileRow_getD _ _ _ _ h2, if_pos hc]
        have hcomp : clean_comp ((reconcileRow need dates row).getD 0 Value.none)
            = clean_comp (row.getD 0 Value.none) := by rw [reconcileRow_getD0]
        rw [hcomp, reconcileRow_getD _ _ _ _ h, if_pos hc, reconcileCell_idem]
      · rw [reconcileRow_getD _ _ _ _ h2, if_neg hc]

lemma reconcile_ok_eq (need : String → Date → Option Rat) (dates : List Date)
    (grid out : List (List Value)) (h : Nat)
    (hfind : findHeaderRow grid = Option.some h)
    (hok : reconcile need dates grid = Except.ok out) :
    out = (List.range grid.length).map (fun r =>
      if r ≤ h then grid.getD r [] else reconcileRow need dates (grid.getD r [])) := by
  simp only [reconcile, hfind] at hok
  injection hok with h2
  exact h2.symm

lemma reconcile_length (need : String → Date → Option Rat) (dates : List Date)
    (grid out : List (List Value)) (h : Nat)
    (hfind : findHeaderRow grid = Option.some h)
    (hok : reconcile need dates grid = Except.ok out) :
    out.length = grid.length := by
  rw [reconcile_ok_eq need dates grid out h hfind hok]
  simp

lemma reconcile_row_eq (need : String → Date → Option Rat) (dates : List Date)
    (grid out : List (List Value)) (h r : Nat)
    (hfind : findHeaderRow grid = Option.some h)
    (hok : reconcile need dates grid = Except.ok out) (hr : r < grid.length) :
    out.getD r [] = if r ≤ h then grid.getD r []
      else reconcileRow need dates (grid.getD r []) := by
  rw [reconcile_ok_eq need dates grid out h hfind hok, getD_map_range, if_pos hr]

lemma cellAt_reconcile_col0 (need : String → Date → Option Rat) (dates : List Date)
    (grid out : List (List Value)) (h : Nat)
    (hfind : findHeaderRow grid = Option.some h)
    (hok : reconcile need dates grid = Except.ok out) :
    ∀ r, cellAt out r 0 = cellAt grid r 0 := by
  intro r
  by_cases hr : r < grid.length
  · rw [cellAt, cellAt, reconcile_row_eq need dates grid out h r hfind hok hr]
    by_cases hle : r ≤ h
    · rw [if_pos hle]
    · rw [if_neg hle]
      exact reconcileRow_getD0 need dates (grid.getD r [])
  · have hlen : out.length = grid.length := reconcile_length need dates grid out h hfind hok
    have h1 : out.length ≤ r := by omega
    have h2 : grid.length ≤ r := by omega
    rw [cellAt, cellAt, List.getD_eq_default _ _ h1, List.getD_eq_default _ _ h2]

lemma findHeaderRow_congr (g1 g2 : List (List Value)) (hlen : g1.length = g2.length)
    (hc : ∀ r, cellAt g1 r 0 = cellAt g2 r 0) : findHeaderRow g1 = findHeaderRow g2 := by
  rw [findHeaderRow, findHeaderRow, hlen]
  congr 1
  funext r
  rw [hc r]

/-! ## Lemmas about the coverage simulation -/

lemma balAux_shift (row : List Value) (nDays : Nat) (need : String → Date → Option Rat)
    (comp : String) : ∀ (j : Nat) (prev : Rat) (k : Nat) (day : Date) (rest : List Date),
    balAux row nDays need comp prev k (day :: rest) (j + 1)
      = balAux row nDays need comp (stepBal row nDays need comp prev k day) (k + 1) rest j := by
  intro j
  induction j with
  | zero =>
    intro prev k day rest
    simp only [balAux, List.getD_cons_succ, List.getD_cons_zero]
  | succ j ih =>
    intro prev k day rest
    show stepBal row nDays need comp (balAux row nDays need comp prev k (day :: rest) (j + 1))
        (k + (j + 1) + 1) ((day :: rest).getD ((j + 1) + 1) 0)
      = stepBal row nDays need comp
          (balAux row nDays need comp (stepBal row nDays need comp prev k day) (k + 1) rest j)
          ((k + 1) + j + 1) (rest.getD (j + 1) 0)
    rw [ih]
    have h1 : k + (j + 1) + 1 = (k + 1) + j + 1 := by omega
    rw [h1, List.getD_cons_succ]

lemma simRowGo_eq (row : List Value) (nDays : Nat) (need : String → Date → Option Rat)
    (fgm : String → Date → List String) (comp : String) :
    ∀ (rest : List Date) (k : Nat) (prev : Rat),
    simRowGo row nDays need fgm comp k prev rest
      = (List.range rest.length).filterMap (fun j =>
          if balAux row nDays need comp prev k rest j < 0
          then Option.some (rest.getD j 0, comp, fgJoin (fgm comp (rest.getD j 0)))
          else Option.none) := by
  intro rest
  induction rest with
  | nil => intro k prev; simp [simRowGo]
  | cons day rest ih =>
    intro k prev
    simp only [simRowGo]
    have hstep : ((if k = 0 then prev
        else prev + safe_float (row.getD (idx_transit nDays (k - 1) - 1) Value.none))
        - ((need comp day).getD 0)) = stepBal row nDays need comp prev k day := rfl
    rw [hstep]
    rw [List.length_cons, List.range_succ_eq_map, List.filterMap_cons, filterMap_map_fun]
    have hzero : balAux row nDays need comp prev k (day :: rest) 0
        = stepBal row nDays need comp prev k day := by
      simp only [balAux, List.getD_cons_zero]
    have htail : (fun j : Nat =>
        if balAux row nDays need comp prev k (day :: rest) (j + 1) < 0
        then Option.some ((day :: rest).getD (j + 1) 0, comp,
          fgJoin (fgm comp ((day :: rest).getD (j + 1) 0)))
        else Option.none)
        = (fun j : Nat =>
            if balAux row nDays need comp (stepBal row nDays need comp prev k day)
                (k + 1) rest j < 0
            then Option.some (rest.getD j 0, comp, fgJoin (fgm comp (rest.getD j 0)))
            else Option.none) := by
      funext j
      rw [balAux_shift, List.getD_cons_succ]
    by_cases hbal : stepBal row nDays need comp prev k day < 0
    · rw [if_pos hbal, hzero, if_pos hbal]
      simp only [List.getD_cons_zero]
      rw [ih (k + 1) (stepBal row nDays need comp prev k day)]
      congr 1
      exact htail.symm ▸ rfl
    · rw [if_neg hbal, hzero, if_neg hbal]
      rw [ih (k + 1) (stepBal row nDays need comp prev k day)]
      exact (congrArg (List.filterMap · (List.range rest.length)) htail).symm

lemma simRowGo_mem_shape (row : List Value) (nDays : Nat) (need : String → Date → Option Rat)
    (fgm : String → Date → List String) (comp : String) :
    ∀ (rest : List Date) (k : Nat) (prev : Rat) (e : Date × String × String),
    e ∈ simRowGo row nDays need fgm comp k prev rest →
      e.2.1 = comp ∧ e.2.2 = fgJoin (fgm comp e.1) := by
  intro rest
  induction rest with
  | nil => intro k prev e he; simp [simRowGo] at he
  | cons day rest ih =>
    intro k prev e he
    simp only [simRowGo] at he
    by_cases hbal : ((if k = 0 then prev
        else prev + safe_float (row.getD (idx_transit nDays (k - 1) - 1) Value.none))
        - ((need comp day).getD 0)) < 0
    · rw [if_pos hbal] at he
      rcases List.mem_cons.mp he with rfl | he2
      · exact ⟨rfl, rfl⟩
      · exact ih (k + 1) _ e he2
    · rw [if_neg hbal] at he
      exact ih (k + 1) _ e he

/-! ## Lemmas about the cause map -/

lemma mem_insertStr (a x : String) : ∀ (l : List String), x ∈ insertStr a l ↔ x = a ∨ x ∈ l := by
  intro l
  induction l with
  | nil => simp [insertStr]
  | cons b bs ih =>
    simp only [insertStr]
    by_cases hab : a ≤ b
    · rw [if_pos hab]
      simp [List.mem_cons]
    · rw [if_neg hab]
      simp only [List.mem_cons, ih]
      tauto

lemma mem_sortStrs (x : String) : ∀ (l : List String), x ∈ sortStrs l ↔ x ∈ l := by
  intro l
  induction l with
  | nil => simp [sortStrs]
  | cons a as ih =>
    simp only [sortStrs, mem_insertStr, List.mem_cons, ih]

lemma mem_dedupStrs : ∀ (l : List String) (x : String), x ∈ dedupStrs l ↔ x ∈ l := by
  intro l
  induction l with
  | nil => intro x; simp [dedupStrs]
  | cons a as ih =>
    intro x
    simp only [dedupStrs]
    by_cases ha : a ∈ dedupStrs as
    · rw [if_pos ha, ih x]
      have ha2 : a ∈ as := (ih a).mp ha
      simp only [List.mem_cons]
      constructor
      · exact Or.inr
      · rintro (rfl | h)
        · exact ha2
        · exact h
    · rw [if_neg ha]
      simp [List.mem_cons, ih x]

lemma mem_fg_map (joined : List JoinRow) (c : String) (d : Date) (fg : String) :
    fg ∈ fg_map joined c d ↔
      ∃ r, r ∈ joined ∧ cleanStr r.comp = c ∧ r.date = d ∧ r.fg = fg := by
  rw [fg_map, mem_sortStrs, mem_dedupStrs, List.mem_filterMap]
  constructor
  · rintro ⟨r, hr, hsel⟩
    by_cases hcond : cleanStr r.comp = c ∧ r.date = d
    · rw [if_pos hcond] at hsel
      injection hsel with hfg
      exact ⟨r, hr, hcond.1, hcond.2, hfg⟩
    · rw [if_neg hcond] at hsel
      exact absurd hsel (Option.noConfusion)
  · rintro ⟨r, hr, h1, h2, h3⟩
    exact ⟨r, hr, by rw [if_pos ⟨h1, h2⟩, h3]⟩

/-! ## Claim theorems -/

/-- C8: safeFloat total contract. safe_float is a total function of the
cell value (the try/except never escapes, modelled by totality): a
numeric input returns its value; a string input is parsed after the
decimal comma is replaced by a decimal point; every failing input
(non-numeric string, null cell, exotic object) yields exactly 0.0.
Two concrete conjuncts exercise the comma replacement and the failure
fallback. -/
theorem C8_safe_float_contract (q : Rat) (s e : String) :
    safe_float (Value.num q) = q
    ∧ safe_float (Value.str s) = (parseDecimal? (commaFix s)).getD 0
    ∧ safe_float Value.none = 0
    ∧ safe_float (Value.other e) = 0
    ∧ safe_float (Value.str "1,5") = 3 / 2
    ∧ safe_float (Value.str "abc") = 0 := by
  refine ⟨rfl, rfl, rfl, rfl, ?_, ?_⟩
  · with_unfolding_all decide
  · with_unfolding_all decide

/-- C1: Explosion additivity. The explosion output has exactly one row
for each (component, date) pair appearing in the inner join of BOM and
plan (and none for any other pair); every such row carries totalNeed
equal to the sum over matching BOM entries of qtyPerUnit times the
planned quantities of that finished good at that date; and appending a
plan row with plannedQty = 0 changes no totalNeed value. -/
theorem C1_explosion_additivity (bom : List BOMEntry) (plan : List PlanRow)
    (c : String) (d : Date) :
    ((explode bom plan).countP (fun n => decide (n.comp = c ∧ n.date = d))
        = if (c, d) ∈ (mergeBOMPlan bom plan).map keyOf then 1 else 0)
    ∧ (∀ n, n ∈ explode bom plan → n.comp = c → n.date = d →
        n.total = needSum bom plan c d)
    ∧ (∀ (fgz : String) (dz : Date),
        needOf (explode bom (plan ++ [⟨fgz, dz, 0⟩])) c d = needOf (explode bom plan) c d) := by
  refine ⟨countP_explode bom plan c d, ?_, ?_⟩
  · intro n hn h1 h2
    rw [explode] at hn
    rcases List.mem_map.mp hn with ⟨k, hk, rfl⟩
    have hkcd : k = (c, d) := Prod.ext h1 h2
    subst hkcd
    show groupSum (mergeBOMPlan bom plan) (c, d) = needSum bom plan c d
    exact groupSum_merge bom plan c d
  · intro fgz dz
    rw [needOf_explode, needOf_explode, groupSum_merge, groupSum_merge,
      needSum_append_zero]

/-- C1 witness: with BOM row (FG1, C1, 2) and plan row (FG1, day 1, 5)
the explosion has exactly one (C1, day 1) row, its total is the claim
sum, and appending a zero plan row for FG2 changes nothing. -/
theorem C1_explosion_additivity_witness :
    ((explode [⟨"FG1", "C1", 2⟩] [⟨"FG1", 1, 5⟩]).countP
        (fun n => decide (n.comp = "C1" ∧ n.date = 1))
      = if ((("C1" : String), (1 : Date)) ∈
            (mergeBOMPlan [⟨"FG1", "C1", 2⟩] [⟨"FG1", 1, 5⟩]).map keyOf) then 1 else 0)
    ∧ (⟨"C1", 1, 10⟩ : ComponentNeed).total
        = needSum [⟨"FG1", "C1", 2⟩] [⟨"FG1", 1, 5⟩] "C1" 1
    ∧ needOf (explode [⟨"FG1", "C1", 2⟩] ([⟨"FG1", 1, 5⟩] ++ [⟨"FG2", 1, 0⟩])) "C1" 1
        = needOf (explode [⟨"FG1", "C1", 2⟩] [⟨"FG1", 1, 5⟩]) "C1" 1 := by
  have h := C1_explosion_additivity [⟨"FG1", "C1", 2⟩] [⟨"FG1", 1, 5⟩] "C1" 1
  exact ⟨h.1, h.2.1 ⟨"C1", 1, 10⟩ (by with_unfolding_all decide) rfl rfl, h.2.2 "FG2" 1⟩

/-- C3: Ledger max-overwrite monotonicity. For a ledger row strictly
below the header with nonblank normalized component label, and a date
column inside the footprint, the reconciled cell where the need lookup
hits reads numerically as the max of the prior numeric value and the
need (hence never below the prior value), and a cell whose key has no
matching ComponentNeed is left untouched. -/
theorem C3_ledger_max_overwrite (need : String → Date → Option Rat) (dates : List Date)
    (grid out : List (List Value)) (h r c : Nat)
    (hok : reconcile need dates grid = Except.ok out)
    (hfind : findHeaderRow grid = Option.some h)
    (hhr : h < r) (hrlen : r < grid.length)
    (hcomp : clean_comp (cellAt grid r 0) ≠ "")
    (hc1 : 1 ≤ c) (hc2 : c - 1 < dates.length) :
    (∀ nv, need (clean_comp (cellAt grid r 0)) (dates.getD (c - 1) 0) = Option.some nv →
        safe_float (cellAt out r c) = max (safe_float (cellAt grid r c)) nv)
    ∧ (need (clean_comp (cellAt grid r 0)) (dates.getD (c - 1) 0) = Option.none →
        cellAt out r c = cellAt grid r c)
    ∧ safe_float (cellAt grid r c) ≤ safe_float (cellAt out r c) := by
  have hrow : out.getD r [] = reconcileRow need dates (grid.getD r []) := by
    rw [reconcile_row_eq need dates grid out h r hfind hok hrlen, if_neg (by omega)]
  have hcell : cellAt out r c = reconcileCell need (clean_comp (cellAt grid r 0))
      (dates.getD (c - 1) 0) (cellAt grid r c) := by
    rw [cellAt, hrow, reconcileRow_getD _ _ _ _ hcomp, if_pos ⟨hc1, hc2⟩]
    rfl
  refine ⟨?_, ?_, ?_⟩
  · intro nv hnv
    rw [hcell, safe_float_reconcileCell _ _ _ _ _ hnv]
  · intro hnone
    rw [hcell, reconcileCell_not_looked_up _ _ _ _ hnone]
  · cases hnd : need (clean_comp (cellAt grid r 0)) (dates.getD (c - 1) 0) with
    | none => rw [hcell, reconcileCell_not_looked_up _ _ _ _ hnd]
    | some nv =>
      rw [hcell, safe_float_reconcileCell _ _ _ _ _ hnd]
      exact le_max_left _ _

/-- C3 witness: ledger with header row 0 and a C1 row holding 3 under a
need of 7 at day 1; the reconciled cell reads 7 = max 3 7, and unmatched
keys are untouched. -/
theorem C3_ledger_max_overwrite_witness :
    safe_float (cellAt [[Value.str "Component"], [Value.str "C1", Value.num 7]] 1 1)
      = max (safe_float (cellAt [[Value.str "Component"], [Value.str "C1", Value.num 3]] 1 1)) 7 := by
  have h := C3_ledger_max_overwrite
    (fun c d => if c = "C1" ∧ d = 1 then Option.some 7 else Option.none) [1]
    [[Value.str "Component"], [Value.str "C1", Value.num 3]]
    [[Value.str "Component"], [Value.str "C1", Value.num 7]]
    0 1 1 (by with_unfolding_all decide) (by with_unfolding_all decide)
    (by decide) (by decide) (by decide) (by decide) (by decide)
  exact h.1 7 (by with_unfolding_all decide)

/-- C9: Reconcile idempotence. Applying the ledger synchronisation a
second time with the same need lookup and ordered dates to an
already-reconciled ledger changes nothing: max-based updates on
already-maximal values are no-ops. -/
theorem C9_reconcile_idempotent (need : String → Date → Option Rat) (dates : List Date)
    (grid out : List (List Value))
    (hok : reconcile need dates grid = Except.ok out) :
    reconcile need dates out = Except.ok out := by
  cases hfind : findHeaderRow grid with
  | none =>
    rw [reconcile, hfind] at hok
    exact absurd hok (by simp)
  | some h =>
    have hout := reconcile_ok_eq need dates grid out h hfind hok
    have hlen : out.length = grid.length := reconcile_length need dates grid out h hfind hok
    have hc0 := cellAt_reconcile_col0 need dates grid out h hfind hok
    have hfind2 : findHeaderRow out = Option.some h := by
      rw [findHeaderRow_congr out grid hlen hc0, hfind]
    simp only [reconcile, hfind2]
    congr 1
    have hmap : (List.range grid.length).map (fun r =>
        if r ≤ h then out.getD r [] else reconcileRow need dates (out.getD r []))
        = (List.range grid.length).map (fun r =>
            if r ≤ h then grid.getD r [] else reconcileRow need dates (grid.getD r [])) := by
      apply List.map_congr_left
      intro r hr
      rw [List.mem_range] at hr
      have hrowr := reconcile_row_eq need dates grid out h r hfind hok hr
      by_cases hrh : r ≤ h
      · rw [if_pos hrh, if_pos hrh, hrowr, if_pos hrh]
      · rw [if_neg hrh, if_neg hrh, hrowr, if_neg hrh, reconcileRow_idem]
    rw [hlen, hmap, ← hout]

/-- C9 witness: reconciling the already-reconciled concrete ledger of
the C3 witness again returns it unchanged. -/
theorem C9_reconcile_idempotent_witness :
    reconcile (fun c d => if c = "C1" ∧ d = 1 then Option.some 7 else Option.none) [1]
      [[Value.str "Component"], [Value.str "C1", Value.num 7]]
    = Except.ok [[Value.str "Component"], [Value.str "C1", Value.num 7]] :=
  C9_reconcile_idempotent
    (fun c d => if c = "C1" ∧ d = 1 then Option.some 7 else Option.none) [1]
    [[Value.str "Component"], [Value.str "C1", Value.num 3]]
    [[Value.str "Component"], [Value.str "C1", Value.num 7]]
    (by with_unfolding_all decide)

/-- C10: Reconcile write footprint. Any cell the ledger sync changes
lies strictly below the header row, within the grid, in 0-based columns
1 through N (1-based 2 through 1+N, N the number of plan dates), in a
row with nonblank normalized component label, and only because the
looked-up need strictly exceeds the numeric reading of the prior cell,
in which case the new cell holds exactly that need. The header row and
everything above it, the component column, and every column beyond the
footprint are never modified. -/
theorem C10_reconcile_write_footprint (need : String → Date → Option Rat) (dates : List Date)
    (grid out : List (List Value)) (h : Nat)
    (hok : reconcile need dates grid = Except.ok out)
    (hfind : findHeaderRow grid = Option.some h) :
    ∀ r c, cellAt out r c ≠ cellAt grid r c →
      h < r ∧ r < grid.length ∧ 1 ≤ c ∧ c ≤ dates.length
      ∧ clean_comp (cellAt grid r 0) ≠ ""
      ∧ ∃ nv, need (clean_comp (cellAt grid r 0)) (dates.getD (c - 1) 0) = Option.some nv
          ∧ safe_float (cellAt grid r c) < nv ∧ cellAt out r c = Value.num nv := by
  intro r c hne
  by_cases hrlen : r < grid.length
  case neg =>
    exfalso
    apply hne
    have hlen := reconcile_length need dates grid out h hfind hok
    have h1 : out.length ≤ r := by omega
    have h2 : grid.length ≤ r := by omega
    rw [cellAt, cellAt, List.getD_eq_default _ _ h1, List.getD_eq_default _ _ h2]
  case pos =>
  have hrow := reconcile_row_eq need dates grid out h r hfind hok hrlen
  by_cases hrh : r ≤ h
  · exfalso
    apply hne
    rw [cellAt, hrow, if_pos hrh]
    rfl
  · rw [if_neg hrh] at hrow
    by_cases hblank : clean_comp (cellAt grid r 0) = ""
    · exfalso
      apply hne
      rw [cellAt, hrow, reconcileRow_blank _ _ _ hblank]
      rfl
    · by_cases hcond : 1 ≤ c ∧ c - 1 < dates.length
      · have hcell : cellAt out r c = reconcileCell need (clean_comp (cellAt grid r 0))
            (dates.getD (c - 1) 0) (cellAt grid r c) := by
          rw [cellAt, hrow, reconcileRow_getD _ _ _ _ hblank, if_pos hcond]
          rfl
        rw [hcell] at hne ⊢
        cases hnd : need (clean_comp (cellAt grid r 0)) (dates.getD (c - 1) 0) with
        | none =>
          exfalso
          apply hne
          rw [reconcileCell_not_looked_up _ _ _ _ hnd]
        | some nv =>
          by_cases hlt : safe_float (cellAt grid r c) < nv
          · refine ⟨by omega, hrlen, hcond.1, by omega, hblank, nv, rfl, hlt, ?_⟩
            simp only [reconcileCell, hnd]
            rw [if_pos hlt]
          · exfalso
            apply hne
            simp only [reconcileCell, hnd]
            rw [if_neg hlt]
      · exfalso
        apply hne
        rw [cellAt, hrow, reconcileRow_getD _ _ _ _ hblank, if_neg hcond]
        rfl

/-- C10 witness: in the C3 witness ledger the only changed cell is row
1, column 1, written to the need 7 which exceeded the prior 3. -/
theorem C10_reconcile_write_footprint_witness :
    (0 : Nat) < 1 ∧ (1 : Nat) < 2 ∧ (1 : Nat) ≤ 1 ∧ (1 : Nat) ≤ 1
    ∧ clean_comp (cellAt [[Value.str "Component"], [Value.str "C1", Value.num 3]] 1 0) ≠ ""
    ∧ ∃ nv, (fun c d => if c = "C1" ∧ d = 1 then Option.some (7 : Rat) else Option.none)
          (clean_comp (cellAt [[Value.str "Component"], [Value.str "C1", Value.num 3]] 1 0))
          (([1] : List Date).getD 0 0) = Option.some nv
        ∧ safe_float (cellAt [[Value.str "Component"], [Value.str "C1", Value.num 3]] 1 1) < nv
        ∧ cellAt [[Value.str "Component"], [Value.str "C1", Value.num 7]] 1 1 = Value.num nv :=
  C10_reconcile_write_footprint
    (fun c d => if c = "C1" ∧ d = 1 then Option.some 7 else Option.none) [1]
    [[Value.str "Component"], [Value.str "C1", Value.num 3]]
    [[Value.str "Component"], [Value.str "C1", Value.num 7]]
    0 (by with_unfolding_all decide) (by with_unfolding_all decide)
    1 1 (by with_unfolding_all decide)

/-- C2 (amended): Shortage soundness and completeness under the balance
recurrence, for coverage rows whose normalized component label is
nonblank: the emitted shortage list is exactly the days whose running
balance (stock + wip, accumulating the positionally read intransit
figure before each day after the first, then subtracting the need
looked up with default 0) is strictly negative, the balance being
carried forward unchanged whether or not it is negative. A coverage row
with blank label emits nothing regardless of its balances (the
amendment the counterexample forces). The hypothesis keeps the day
count within the row slice the source reads. -/
theorem C2_shortage_soundness (row : List Value) (nDays : Nat)
    (need : String → Date → Option Rat) (fgm : String → Date → List String)
    (dates : List Date) (_hfit : dates.length ≤ nDays) :
    (clean_comp (row.getD 0 Value.none) ≠ "" →
      simRow row nDays need fgm dates
        = (List.range dates.length).filterMap (fun i =>
            if covBalance row nDays need (clean_comp (row.getD 0 Value.none)) dates i < 0
            then Option.some (dates.getD i 0, clean_comp (row.getD 0 Value.none),
              fgJoin (fgm (clean_comp (row.getD 0 Value.none)) (dates.getD i 0)))
            else Option.none))
    ∧ (clean_comp (row.getD 0 Value.none) = "" → simRow row nDays need fgm dates = []) := by
  constructor
  · intro hcomp
    simp only [simRow]
    rw [if_neg hcomp, simRowGo_eq]
    simp only [covBalance]
  · intro hcomp
    simp only [simRow]
    rw [if_pos hcomp]

/-- C2 witness: a C1 coverage row with stock 0 and a need of 9 on the
single day yields the closed-form shortage list of the theorem. -/
theorem C2_shortage_soundness_witness :
    simRow [Value.str "C1", Value.num 0, Value.num 0, Value.num 4, Value.num 0] 1
      (fun c d => if c = "C1" ∧ d = 1 then Option.some 9 else Option.none)
      (fun _ _ => []) [1]
    = (List.range (([1] : List Date).length)).filterMap (fun i =>
        if covBalance [Value.str "C1", Value.num 0, Value.num 0, Value.num 4, Value.num 0] 1
            (fun c d => if c = "C1" ∧ d = 1 then Option.some 9 else Option.none)
            (clean_comp (([Value.str "C1", Value.num 0, Value.num 0, Value.num 4,
              Value.num 0] : List Value).getD 0 Value.none)) [1] i < 0
        then Option.some (([1] : List Date).getD i 0,
          clean_comp (([Value.str "C1", Value.num 0, Value.num 0, Value.num 4,
            Value.num 0] : List Value).getD 0 Value.none),
          fgJoin ((fun _ _ => ([] : List String))
            (clean_comp (([Value.str "C1", Value.num 0, Value.num 0, Value.num 4,
              Value.num 0] : List Value).getD 0 Value.none)) (([1] : List Date).getD i 0)))
        else Option.none) :=
  (C2_shortage_soundness [Value.str "C1", Value.num 0, Value.num 0, Value.num 4, Value.num 0] 1
    (fun c d => if c = "C1" ∧ d = 1 then Option.some 9 else Option.none)
    (fun _ _ => []) [1] (by decide)).1 (by decide)

/-- C2 counterexample: a coverage row whose component cell is the blank
string " " has day-0 balance -5 < 0 under the stated recurrence, yet
the simulator emits no Shortage at all for it (the row is skipped), so
the claims universal iff over every coverage row fails. -/
theorem C2_blank_row_counterexample :
    simRow [Value.str " ", Value.num (-5), Value.num 0, Value.num 0] 1
      (fun _ _ => Option.none) (fun _ _ => []) [1] = []
    ∧ covBalance [Value.str " ", Value.num (-5), Value.num 0, Value.num 0] 1
        (fun _ _ => Option.none)
        (clean_comp ((([Value.str " ", Value.num (-5), Value.num 0,
          Value.num 0]) : List Value).getD 0 Value.none)) [1] 0 = -5
    ∧ ((-5 : Rat) < 0) := by
  refine ⟨?_, ?_, ?_⟩ <;> with_unfolding_all decide

/-- C4 (amended): Cause membership. The causing finished goods recorded
for (component, date) are exactly the finished-good codes with a BOM
entry for that component and a PRESENT (possibly zero) planned quantity
on that date; the placeholder dash is rendered when the set is empty,
and the comma join of the sorted set otherwise; and every triple the
simulator emits carries the rows normalized component and that
rendering for its date. -/
theorem C4_cause_membership (bom : List BOMEntry) (plan : List PlanRow)
    (c : String) (d : Date) (fg : String) (row : List Value) (nDays : Nat)
    (need : String → Date → Option Rat) (dates : List Date) :
    (fg ∈ fg_map (mergeBOMPlan bom plan) c d ↔
      ∃ b, b ∈ bom ∧ ∃ p, p ∈ plan ∧ p.fg = b.fg ∧ cleanStr b.comp = c ∧ p.date = d ∧ fg = b.fg)
    ∧ (fg_map (mergeBOMPlan bom plan) c d = [] →
        fgJoin (fg_map (mergeBOMPlan bom plan) c d) = "–")
    ∧ (fg_map (mergeBOMPlan bom plan) c d ≠ [] →
        fgJoin (fg_map (mergeBOMPlan bom plan) c d)
          = joinSep ", " (fg_map (mergeBOMPlan bom plan) c d))
    ∧ (∀ e, e ∈ simRow row nDays need (fg_map (mergeBOMPlan bom plan)) dates →
        e.2.1 = clean_comp (row.getD 0 Value.none)
        ∧ e.2.2 = fgJoin (fg_map (mergeBOMPlan bom plan) e.2.1 e.1)) := by
  refine ⟨?_, ?_, ?_, ?_⟩
  · rw [mem_fg_map]
    constructor
    · rintro ⟨r, hr, h1, h2, h3⟩
      rcases (mem_mergeBOMPlan bom plan r).mp hr with ⟨b, hb, p, hp, hfg, rfl⟩
      exact ⟨b, hb, p, hp, hfg, h1, h2, h3.symm⟩
    · rintro ⟨b, hb, p, hp, hfg, h1, h2, rfl⟩
      exact ⟨⟨b.fg, b.comp, p.date, b.qty * p.qty⟩,
        (mem_mergeBOMPlan bom plan _).mpr ⟨b, hb, p, hp, hfg, rfl⟩, h1, h2, rfl⟩
  · intro hnil
    rw [fgJoin, if_pos hnil]
  · intro hnil
    rw [fgJoin, if_neg hnil]
  · intro e he
    simp only [simRow] at he
    by_cases hcomp : clean_comp (row.getD 0 Value.none) = ""
    · rw [if_pos hcomp] at he
      exact absurd he (List.not_mem_nil e)
    · rw [if_neg hcomp] at he
      have hs := simRowGo_mem_shape row nDays need (fg_map (mergeBOMPlan bom plan))
        (clean_comp (row.getD 0 Value.none)) dates 0 _ e he
      exact ⟨hs.1, by rw [hs.1]; exact hs.2⟩

/-- C4 witness: with the two-entry BOM and the zero-quantity FG2 plan
row, FG2 is a member of the recorded cause set because its planned
quantity is present. -/
theorem C4_cause_membership_witness :
    ("FG2" : String) ∈ fg_map (mergeBOMPlan [⟨"FG1", "C1", 2⟩, ⟨"FG2", "C1", 1⟩]
      [⟨"FG1", 1, 5⟩, ⟨"FG2", 1, 0⟩]) "C1" 1 :=
  (C4_cause_membership [⟨"FG1", "C1", 2⟩, ⟨"FG2", "C1", 1⟩]
    [⟨"FG1", 1, 5⟩, ⟨"FG2", 1, 0⟩] "C1" 1 "FG2" [] 0 (fun _ _ => Option.none) []).1.mpr
    ⟨⟨"FG2", "C1", 1⟩, by with_unfolding_all decide,
      ⟨"FG2", 1, 0⟩, by with_unfolding_all decide, rfl, by decide, rfl, rfl⟩

/-- C4 counterexample: BOM has FG1 and FG2 both using C1; the plan has
FG1 at 5 and FG2 at 0 on day 1. The shortage emitted on day 1 carries
causing finished goods "FG1, FG2" (FG2 included despite its zero
planned quantity), while the set the claim describes is exactly
["FG1"], so the claim as stated is false. -/
theorem C4_zero_qty_counterexample :
    fg_map (mergeBOMPlan [⟨"FG1", "C1", 2⟩, ⟨"FG2", "C1", 1⟩]
        [⟨"FG1", 1, 5⟩, ⟨"FG2", 1, 0⟩]) "C1" 1 = ["FG1", "FG2"]
    ∧ specNonzeroCauses [⟨"FG1", "C1", 2⟩, ⟨"FG2", "C1", 1⟩]
        [⟨"FG1", 1, 5⟩, ⟨"FG2", 1, 0⟩] "C1" 1 = ["FG1"]
    ∧ simRow [Value.str "C1", Value.num 0, Value.num 0, Value.num 10, Value.num 0] 1
        (need_lookup (explode [⟨"FG1", "C1", 2⟩, ⟨"FG2", "C1", 1⟩]
          [⟨"FG1", 1, 5⟩, ⟨"FG2", 1, 0⟩]))
        (fg_map (mergeBOMPlan [⟨"FG1", "C1", 2⟩, ⟨"FG2", "C1", 1⟩]
          [⟨"FG1", 1, 5⟩, ⟨"FG2", 1, 0⟩]))
        [1] = [(1, "C1", "FG1, FG2")]
    ∧ ("FG1, FG2" : String) ≠ "FG1" := by
  refine ⟨?_, ?_, ?_, ?_⟩ <;> with_unfolding_all decide

/-- C5 (amended): Intransit column alignment holds for the layout the
code actually assumes: when the coverage sheet is 3 leading columns
plus 3N trailing columns, the derived day count (maxCol - 3) / 3 equals
N, the 0-based transit index i maps to 1-based column 4 + N + i, and
the balance for day i+1 accumulates the value read at 0-based index
3 + N + i, i.e. 1-based column 3 + N + (i+1), before subtracting the
need of day i+1. Under the documented 3 + 2N layout the derived day
count is 2N/3 instead (see the counterexample). -/
theorem C5_intransit_alignment (n i : Nat) (row : List Value)
    (need : String → Date → Option Rat) (comp : String) (dates : List Date) :
    n_days (3 + 3 * n) = n
    ∧ idx_transit (n_days (3 + 3 * n)) i = 4 + n + i
    ∧ covBalance row (n_days (3 + 3 * n)) need comp dates (i + 1)
        = covBalance row (n_days (3 + 3 * n)) need comp dates i
          + safe_float (row.getD (3 + n + i) Value.none)
          - ((need comp (dates.getD (i + 1) 0)).getD 0) := by
  have hn : n_days (3 + 3 * n) = n := by
    rw [n_days]
    omega
  refine ⟨hn, by rw [hn, idx_transit], ?_⟩
  rw [hn]
  show stepBal row n need comp (covBalance row n need comp dates i) (0 + i + 1)
      (dates.getD (i + 1) 0) = _
  rw [stepBal, if_neg (by omega)]
  have hidx : idx_transit n (0 + i + 1 - 1) - 1 = 3 + n + i := by
    rw [idx_transit]
    omega
  rw [hidx]

/-- C5 counterexample: take N = 3 plan dates and a coverage row in the
documented layout 3 + N + N = 9 columns (need columns 4..6 hold 0, 0,
100; intransit columns 7..9 hold 0). The code derives n_days = 2 and
reads 1-based column 6 for day 1 — not column 3 + N + 1 = 7 — so with a
need of 50 on day 2 its day-1 balance is 100 - 50 = 50 and it emits no
shortage, while the claims column mapping gives balance -50 < 0 and
predicts a shortage. -/
theorem C5_intransit_counterexample :
    n_days 9 = 2
    ∧ idx_transit (n_days 9) 0 = 6
    ∧ ((6 : Nat) ≠ 3 + 3 + 1)
    ∧ simRow [Value.str "C1", Value.num 0, Value.num 0, Value.num 0, Value.num 0, Value.num 100,
        Value.num 0, Value.num 0, Value.num 0] (n_days 9)
        (fun c d => if c = "C1" ∧ d = 2 then Option.some 50 else Option.none)
        (fun _ _ => []) [1, 2, 3] = []
    ∧ covBalance [Value.str "C1", Value.num 0, Value.num 0, Value.num 0, Value.num 0,
        Value.num 100, Value.num 0, Value.num 0, Value.num 0] 3
        (fun c d => if c = "C1" ∧ d = 2 then Option.some 50 else Option.none) "C1" [1, 2, 3] 1
        = -50
    ∧ covBalance [Value.str "C1", Value.num 0, Value.num 0, Value.num 0, Value.num 0,
        Value.num 100, Value.num 0, Value.num 0, Value.num 0] (n_days 9)
        (fun c d => if c = "C1" ∧ d = 2 then Option.some 50 else Option.none) "C1" [1, 2, 3] 1
        = 50 := by
  refine ⟨?_, ?_, ?_, ?_, ?_, ?_⟩ <;> with_unfolding_all decide

/-- C6 (amended): rows whose component label normalizes to the empty
string (empty or whitespace-only text) are skipped entirely by the
ledger sync, every cell untouched; but a NULL component cell is not
blank to the code — str(None) is "None", normalized "NONE" — so such a
row is processed under the label "NONE" (see the counterexample). -/
theorem C6_blank_rows_skipped (need : String → Date → Option Rat) (dates : List Date)
    (grid out : List (List Value)) (h r : Nat)
    (hok : reconcile need dates grid = Except.ok out)
    (hfind : findHeaderRow grid = Option.some h)
    (hblank : clean_comp (cellAt grid r 0) = "") :
    out.getD r [] = grid.getD r []
    ∧ (∀ c, cellAt out r c = cellAt grid r c)
    ∧ clean_comp Value.none = "NONE" := by
  have hlen := reconcile_length need dates grid out h hfind hok
  have hrow : out.getD r [] = grid.getD r [] := by
    by_cases hrlen : r < grid.length
    · rw [reconcile_row_eq need dates grid out h r hfind hok hrlen]
      by_cases hrh : r ≤ h
      · rw [if_pos hrh]
      · rw [if_neg hrh, reconcileRow_blank _ _ _ hblank]
    · have h1 : out.length ≤ r := by omega
      have h2 : grid.length ≤ r := by omega
      rw [List.getD_eq_default _ _ h1, List.getD_eq_default _ _ h2]
  refine ⟨hrow, fun c => by rw [cellAt, cellAt, hrow], by decide⟩

/-- C6 witness: in a ledger where the C1 row is overwritten from 3 to
7, the row whose component cell is the whitespace string is left
untouched. -/
theorem C6_blank_rows_skipped_witness :
    ([[Value.str "Component"], [Value.str "C1", Value.num 7],
        [Value.str " ", Value.num 0]] : List (List Value)).getD 2 []
      = ([[Value.str "Component"], [Value.str "C1", Value.num 3],
        [Value.str " ", Value.num 0]] : List (List Value)).getD 2 []
    ∧ clean_comp Value.none = "NONE" := by
  have h := C6_blank_rows_skipped
    (fun c d => if c = "C1" ∧ d = 1 then Option.some 7 else Option.none) [1]
    [[Value.str "Component"], [Value.str "C1", Value.num 3], [Value.str " ", Value.num 0]]
    [[Value.str "Component"], [Value.str "C1", Value.num 7], [Value.str " ", Value.num 0]]
    0 2 (by with_unfolding_all decide) (by with_unfolding_all decide) (by decide)
  exact ⟨h.1, h.2.2⟩

/-- C6 counterexample: a ledger row whose component cell is NULL is not
skipped: it is processed under the normalized label "NONE", and with a
need of 5 recorded for ("NONE", day 1) its cell is overwritten from 0
to 5, so the claim that null-labelled rows are left entirely unchanged
is false. -/
theorem C6_null_label_counterexample :
    reconcile (fun c d => if c = "NONE" ∧ d = 1 then Option.some 5 else Option.none) [1]
      [[Value.str "Component"], [Value.none, Value.num 0]]
      = Except.ok [[Value.str "Component"], [Value.none, Value.num 5]]
    ∧ cellAt [[Value.str "Component"], [Value.none, Value.num 0]] 1 0 = Value.none
    ∧ cellAt [[Value.str "Component"], [Value.none, Value.num 5]] 1 1
        ≠ cellAt [[Value.str "Component"], [Value.none, Value.num 0]] 1 1 := by
  refine ⟨?_, ?_, ?_⟩ <;> with_unfolding_all decide

/-- C7 (amended): when no coverage row has first cell literally "APN"
the pipeline does abort, but through a bare StopIteration from the
exhausted `next` generator, which carries no message at all — not a
descriptive HeaderNotFound-style error naming the coverage table (the
plan and ledger header checks, by contrast, raise ValueError with a
descriptive message). -/
theorem C7_coverage_header_abort (grid : List (List Value))
    (hnone : ∀ r, r < grid.length → cellAt grid r 0 ≠ Value.str "APN") :
    coverageHeaderStage grid = Except.error PyError.stopIteration
    ∧ errMessage PyError.stopIteration = Option.none
    ∧ isDescriptive PyError.stopIteration = false := by
  have hfind : findCovHeader grid = Option.none := by
    rw [findCovHeader]
    apply List.find?_eq_none.mpr
    intro r hr
    rw [List.mem_range] at hr
    simp only [decide_eq_true_eq]
    exact hnone r hr
  have hstage : coverageHeaderStage grid = Except.error PyError.stopIteration := by
    simp only [coverageHeaderStage, hfind]
  exact ⟨hstage, rfl, rfl⟩

/-- C7 witness: a one-row coverage sheet without an APN cell aborts
with the message-less StopIteration. -/
theorem C7_coverage_header_abort_witness :
    coverageHeaderStage [[Value.str "X"]] = Except.error PyError.stopIteration
    ∧ errMessage PyError.stopIteration = Option.none
    ∧ isDescriptive PyError.stopIteration = false :=
  C7_coverage_header_abort [[Value.str "X"]] (by
    intro r hr
    have hzero : r = 0 := by simpa using hr
    subst hzero
    decide)

/-- C7 counterexample: on a concrete coverage grid without any "APN"
cell the stage fails with StopIteration, whose surfaced message is
nothing and which is not descriptive, refuting the claim that a single
descriptive message identifying the coverage table is surfaced. -/
theorem C7_coverage_header_counterexample :
    coverageHeaderStage [[Value.str "component"], [Value.num 1, Value.num 2]]
      = Except.error PyError.stopIteration
    ∧ errMessage PyError.stopIteration = Option.none
    ∧ isDescriptive PyError.stopIteration = false := by
  refine ⟨?_, rfl, rfl⟩
  with_unfolding_all decide

end Aptiv
